/-
Verification of the LLM-hack document query-retrieval repository.

This file gives a shallow embedding, in Lean 4, of the parts of the
TypeScript source that the specification's claims talk about:

* the simulated vector database of src/api/vector/search/route.ts
  (class VectorDatabase: a JS Map from id to entry, `upsert`, `query`,
  and the POST handler's metadata filtering),
* the hybrid search of src/pinecone.ts
  (AdvancedPineconeService.hybridSearch),
* the chunking loop of src/unnamed/part_000
  (EnhancedDocumentProcessor.intelligentChunking),
* the batch question processing of src/api/ai/process/route.ts
  (MultiAIService.processQuestions / processIndividualQuestion).

Modelling conventions:

* JS numbers used as scores/costs are embedded as rationals (ℚ);
  character indices as integers (ℤ) because the chunking loop can drive
  its start index negative; machine-level float rounding is irrelevant
  at the inputs considered (the one float comparison, boundary >
  chunkSize * 0.7 with chunkSize = 1000, is exactly boundary > 700 on
  IEEE doubles and is embedded as the exact rational comparison).
* Calls to Math.random() and to the wall clock (Date.now(),
  new Date().toISOString()) are impure inputs of the code; they are
  embedded as explicit oracle parameters, so that every theorem
  quantifies over the values the impure calls may return.
* JS Array.prototype.sort with a numeric comparator is (per the
  ECMAScript specification) a stable sort; it is embedded as a stable
  insertion sort, with its stability proved below.
* Promise.all resolves with the results in the order of the input
  array, regardless of the order in which the promises settle; it is
  embedded operationally: tasks settle in completion-time order and
  each writes its slot of the result array, and the order-independence
  is proved, not assumed.
-/
import Mathlib

namespace LLMHack

/-! ## Stable sorting (model of JS Array.prototype.sort)

JS `arr.sort((a, b) => b.key - a.key)` is a stable descending sort on
`key`; `arr.sort((a, b) => a.key - b.key)` a stable ascending one. -/

/-- Insert `x` in front of the first element whose key is `≤ f x`
(descending insertion that keeps earlier-listed elements of equal key
in front, hence stable). -/
def insertDesc {α κ : Type} [LinearOrder κ] (f : α → κ) (x : α) : List α → List α
  | [] => [x]
  | y :: ys => if f y ≤ f x then x :: y :: ys else y :: insertDesc f x ys

/-- Stable sort by strictly decreasing key, ties in input order. -/
def sortDesc {α κ : Type} [LinearOrder κ] (f : α → κ) : List α → List α
  | [] => []
  | x :: xs => insertDesc f x (sortDesc f xs)

/-- Insert `x` in front of the first element whose key is `≥ f x`
(ascending insertion, stable). -/
def insertAsc {α κ : Type} [LinearOrder κ] (f : α → κ) (x : α) : List α → List α
  | [] => [x]
  | y :: ys => if f x ≤ f y then x :: y :: ys else y :: insertAsc f x ys

/-- Stable sort by increasing key, ties in input order. -/
def sortAsc {α κ : Type} [LinearOrder κ] (f : α → κ) : List α → List α
  | [] => []
  | x :: xs => insertAsc f x (sortAsc f xs)

/-! ## JS string primitives

The chunking code uses String.prototype.substring, lastIndexOf, trim,
toLowerCase and includes.  They are embedded on `String.data` (the
character list); the sources only ever apply them to ordinary text, so
code-unit subtleties of UTF-16 are not load-bearing here. -/

/-- ECMAScript String.prototype.substring: both arguments are clamped
into `[0, length]` and swapped if out of order. -/
def jsSubstring (s : String) (a b : ℤ) : String :=
  let len : ℤ := s.length
  let ia : ℕ := (min (max a 0) len).toNat
  let ib : ℕ := (min (max b 0) len).toNat
  let lo : ℕ := min ia ib
  let hi : ℕ := max ia ib
  String.mk ((s.data.drop lo).take (hi - lo))

/-- Helper for `jsLastIndexOf`: scan the characters left to right,
remembering the index of the most recent match (`best`, initially -1). -/
def jsLastIndexOfAux (c : Char) : List Char → ℕ → ℤ → ℤ
  | [], _, best => best
  | x :: xs, i, best => jsLastIndexOfAux c xs (i + 1) (if x = c then (i : ℤ) else best)

/-- ECMAScript String.prototype.lastIndexOf for a single character:
index of the last occurrence, or -1 if there is none. -/
def jsLastIndexOf (s : String) (c : Char) : ℤ :=
  jsLastIndexOfAux c s.data 0 (-1)

/-- ECMAScript String.prototype.trim: strip whitespace at both ends. -/
def jsTrim (s : String) : String :=
  String.mk (((s.data.dropWhile Char.isWhitespace).reverse.dropWhile Char.isWhitespace).reverse)

/-- String.prototype.toLowerCase (ASCII-adequate embedding). -/
def jsToLowerCase (s : String) : String :=
  String.mk (s.data.map Char.toLower)

/-- Does `needle` occur as a contiguous run inside `hay`? -/
def listContainsSub (needle : List Char) : List Char → Bool
  | [] => List.isPrefixOf needle []
  | c :: rest => List.isPrefixOf needle (c :: rest) || listContainsSub needle rest

/-- ECMAScript String.prototype.includes. -/
def jsIncludes (s sub : String) : Bool :=
  listContainsSub sub.data s.data

/-! ## Simulated vector database (src/api/vector/search/route.ts)

`class VectorDatabase` keeps `private vectors: Map<string, {id, values,
metadata}>`.  The JS Map is embedded as a list of entries in insertion
order; `Map.set` replaces in place when the key exists and appends
otherwise.  Metadata is embedded as an exact-match key/value record
(the POST handler filters with `result.metadata[key] === value`). -/

/-- One stored vector: `{ id: string; values: number[]; metadata: any }`.
Metadata is kept as the string key/value pairs the filter path reads. -/
structure VectorEntry where
  id : String
  values : List ℚ
  metadata : List (String × String)
deriving DecidableEq, Repr

/-- JS object / Map property read: value of the first pair with the key. -/
def jsObjGet {β : Type} (l : List (String × β)) (k : String) : Option β :=
  (l.find? (fun p => p.1 = k)).map Prod.snd

/-- `this.vectors.set(vector.id, vector)`: replace in place if the id is
present, append otherwise (JS Map semantics). -/
def mapSet : List VectorEntry → VectorEntry → List VectorEntry
  | [], v => [v]
  | e :: rest, v => if e.id = v.id then v :: rest else e :: mapSet rest v

/-- `VectorDatabase.upsert(vectors)`: `vectors.forEach(v =>
this.vectors.set(v.id, v))`.  There is no dimension check of any kind
in the source. -/
def upsert (db : List VectorEntry) (vs : List VectorEntry) : List VectorEntry :=
  vs.foldl mapSet db

/-- `this.vectors.get(id)` — the observable read-back of the map. -/
def getById (db : List VectorEntry) (i : String) : Option VectorEntry :=
  db.find? (fun e => e.id = i)

/-- An entry extended with the mock similarity score
(`{...vector, score: Math.random() * 0.3 + 0.7}`). -/
structure ScoredEntry where
  id : String
  values : List ℚ
  metadata : List (String × String)
  score : ℚ
deriving DecidableEq, Repr

/-- `VectorDatabase.query(queryEmbedding, topK)`.  The query embedding is
received but never read: each stored entry gets a fresh mock score
(`Math.random() * 0.3 + 0.7`, embedded as the oracle `scores`, one draw
per entry in map order), the scored entries are sorted by descending
score (`.sort((a, b) => b.score - a.score)`, a stable sort) and the
first `topK` are returned (`.slice(0, topK)`). -/
def query (queryEmbedding : List ℚ) (scores : ℕ → ℚ) (db : List VectorEntry)
    (topK : ℕ) : List ScoredEntry :=
  let _ := queryEmbedding
  let results := db.enum.map (fun p => ScoredEntry.mk p.2.id p.2.values p.2.metadata (scores p.1))
  (sortDesc ScoredEntry.score results).take topK

/-- The POST handler's filter predicate: with no filters every result
passes; otherwise every `[key, value]` pair must satisfy
`result.metadata[key] === value`. -/
def matchesFilters (filters : List (String × String)) (m : List (String × String)) : Bool :=
  if filters.isEmpty then true
  else filters.all (fun p => jsObjGet m p.1 == some p.2)

/-- The POST handler's retrieval path: `searchResults = await
vectorDB.query(queryEmbedding, topK)` followed by `filteredResults =
searchResults.filter(...)` — the metadata filter runs AFTER the top-K
cut, on the already-truncated list. -/
def postFilteredResults (queryEmbedding : List ℚ) (scores : ℕ → ℚ)
    (db : List VectorEntry) (topK : ℕ) (filters : List (String × String)) : List ScoredEntry :=
  (query queryEmbedding scores db topK).filter (fun r => matchesFilters filters r.metadata)

/-! ## Hybrid search (src/pinecone.ts, AdvancedPineconeService.hybridSearch)

`hybridSearch(query, keywords, {semanticWeight = 0.7, keywordWeight =
0.3, topK = 10})` first obtains `semanticResults` from the (external,
network-backed) Pinecone semantic search; those candidates are the
input of the pure re-ranking logic embedded here.  Each semantic result
carries `id`, `score`, `text` and `metadata` (whose `keywords` list is
the only metadata the re-ranker reads). -/

/-- One candidate returned by `semanticSearch` — `{id, score, text,
metadata}` with `metadata.keywords` as read by the keyword filter. -/
structure SearchResult where
  id : String
  score : ℚ
  text : String
  keywords : List String
deriving DecidableEq, Repr

/-- A candidate after re-scoring: `{...result, hybridScore: finalScore}`. -/
structure HybridResult extends SearchResult where
  hybridScore : ℚ
deriving DecidableEq, Repr

/-- The keyword predicate of the `keywordFiltered` filter: some supplied
keyword occurs case-insensitively in the chunk text
(`result.text.toLowerCase().includes(keyword.toLowerCase())`) or in a
stored keyword (`result.metadata?.keywords?.some(k =>
k.toLowerCase().includes(keyword.toLowerCase()))`). -/
def keywordMatches (keywords : List String) (r : SearchResult) : Bool :=
  keywords.any (fun kw =>
    jsIncludes (jsToLowerCase r.text) (jsToLowerCase kw) ||
    r.keywords.any (fun k => jsIncludes (jsToLowerCase k) (jsToLowerCase kw)))

/-- The re-ranking half of `hybridSearch`, applied to the semantic
candidates: `keywordFiltered = semanticResults.filter(...)`; each
candidate gets `finalScore = result.score * semanticWeight +
keywordBoost` with `keywordBoost = keywordFiltered.includes(result) ?
keywordWeight : 0`; then a stable descending sort on `hybridScore`
(`.sort((a, b) => b.hybridScore - a.hybridScore)`) and `.slice(0, topK)`. -/
def hybridSearch (semanticResults : List SearchResult) (keywords : List String)
    (semanticWeight keywordWeight : ℚ) (topK : ℕ) : List HybridResult :=
  let keywordFiltered := semanticResults.filter (keywordMatches keywords)
  let hybridResults := semanticResults.map (fun r =>
    let keywordBoost := if keywordFiltered.contains r then keywordWeight else 0
    HybridResult.mk r (r.score * semanticWeight + keywordBoost))
  (sortDesc HybridResult.hybridScore hybridResults).take topK

/-- Re-scoring as the specification words it: `semanticWeight *
similarity + keywordWeight * keywordOverlapIndicator` with the
indicator 1 exactly when `keywordMatches` holds. -/
def specRescore (keywords : List String) (semanticWeight keywordWeight : ℚ)
    (r : SearchResult) : HybridResult :=
  HybridResult.mk r
    (semanticWeight * r.score + keywordWeight * (if keywordMatches keywords r then 1 else 0))

/-! ## The chunking loop (src/unnamed/part_000, intelligentChunking)

```
const chunkSize = 1000, overlap = 200
let startIndex = 0, chunkIndex = 0
while (startIndex < content.length) {
  const endIndex = Math.min(startIndex + chunkSize, content.length)
  let chunkText = content.substring(startIndex, endIndex)
  if (endIndex < content.length) {
    const boundary = max(chunkText.lastIndexOf('.'), chunkText.lastIndexOf('\n'))
    if (boundary > chunkSize * 0.7) {
      chunkText = chunkText.substring(0, boundary + 1)
      endIndex = startIndex + boundary + 1      // (reassigns a `const`)
    }
  }
  chunks.push({...})
  chunkIndex++
  startIndex = endIndex - overlap
}
```

The boundary branch reassigns the `const endIndex`; the embedding
follows the evident data flow and treats it as mutable (the branch is
dead for the inputs the refuted claims use, so nothing below depends on
that choice).  The helpers `detectSection`, `extractKeywords` and
`extractSimpleEntities` are pure functions of the chunk text (and
domain) whose values no claim mentions; they are abstracted as
parameters of the chunker environment, so every theorem below holds for
any faithful instantiation of them.  `new Date().toISOString()`, read
once per created chunk, is the oracle `now` applied to the chunk index. -/

/-- Result shape of `extractSimpleEntities`. -/
structure EntityMap where
  amounts : List String
  dates : List String
  organizations : List String
  locations : List String
deriving DecidableEq, Repr

/-- `metadata` of a produced chunk. -/
structure ChunkMeta where
  chunk_index : ℕ
  domain : String
  created_at : String
deriving DecidableEq, Repr

/-- One produced chunk object. -/
structure Chunk where
  id : String
  text : String
  start_index : ℤ
  end_index : ℤ
  length : ℕ
  «section» : String
  keywords : List String
  entities : EntityMap
  metadata : ChunkMeta
deriving DecidableEq, Repr

/-- The impure/abstracted inputs of the chunker: the three pure text
helpers of the class, and the wall clock read when chunk `k` is built. -/
structure ChunkerEnv where
  detectSection : String → String → String
  extractKeywords : String → List String
  extractSimpleEntities : String → EntityMap
  now : ℕ → String

/-- Mutable state of the while loop. -/
structure ChunkState where
  startIndex : ℤ
  chunkIndex : ℕ
  chunks : List Chunk
deriving Repr

/-- The window computation of one loop iteration: raw window
`[startIndex, min(startIndex + chunkSize, len))`, then the
sentence-boundary cut when the window's right edge is strictly inside
the text and the boundary is past 0.7 · chunkSize.  Returns the final
`(chunkText, endIndex)` pair. -/
def chunkWindow (chunkSize : ℕ) (content : String) (startIndex : ℤ) : String × ℤ :=
  let len : ℤ := content.length
  let endIndex0 : ℤ := min (startIndex + chunkSize) len
  let chunkText0 := jsSubstring content startIndex endIndex0
  if endIndex0 < len then
    let lastPeriod := jsLastIndexOf chunkText0 '.'
    let lastNewline := jsLastIndexOf chunkText0 '\n'
    let boundary := max lastPeriod lastNewline
    if boundary * 10 > (chunkSize : ℤ) * 7 then
      (jsSubstring chunkText0 0 (boundary + 1), startIndex + boundary + 1)
    else (chunkText0, endIndex0)
  else (chunkText0, endIndex0)

/-- One iteration of the while loop body: build the chunk object, push
it, advance `chunkIndex`, and set `startIndex = endIndex - overlap`. -/
def chunkStep (env : ChunkerEnv) (chunkSize overlap : ℕ) (content domain : String)
    (st : ChunkState) : ChunkState :=
  let w := chunkWindow chunkSize content st.startIndex
  let chunkText := w.1
  let endIndex := w.2
  let chunk : Chunk :=
    { id := "chunk_" ++ toString st.chunkIndex
      text := jsTrim chunkText
      start_index := st.startIndex
      end_index := endIndex
      length := chunkText.length
      «section» := env.detectSection chunkText domain
      keywords := env.extractKeywords chunkText
      entities := env.extractSimpleEntities chunkText
      metadata :=
        { chunk_index := st.chunkIndex
          domain := domain
          created_at := env.now st.chunkIndex } }
  { startIndex := endIndex - overlap
    chunkIndex := st.chunkIndex + 1
    chunks := st.chunks ++ [chunk] }

/-- The loop state after `n` executed iterations (an iteration runs only
while the guard `startIndex < content.length` holds). -/
def chunkStepsG (env : ChunkerEnv) (chunkSize overlap : ℕ) (content domain : String) :
    ℕ → ChunkState
  | 0 => ⟨0, 0, []⟩
  | n + 1 =>
    let st := chunkStepsG env chunkSize overlap content domain n
    if st.startIndex < (content.length : ℤ) then
      chunkStep env chunkSize overlap content domain st
    else st

/-- `chunkStepsG` at the code's fixed constants `chunkSize = 1000`,
`overlap = 200`. -/
def chunkSteps (env : ChunkerEnv) (content domain : String) : ℕ → ChunkState :=
  chunkStepsG env 1000 200 content domain

/-- The while loop as a fuelled runner: `some chunks` when the guard
fails within `fuel` iterations, `none` when `fuel` iterations did not
reach termination. -/
def chunkLoop (env : ChunkerEnv) (content domain : String) : ChunkState → ℕ → Option (List Chunk)
  | _, 0 => none
  | st, fuel + 1 =>
    if st.startIndex < (content.length : ℤ) then
      chunkLoop env content domain (chunkStep env 1000 200 content domain st) fuel
    else some st.chunks

/-- `intelligentChunking(content, domain)`: run the loop from
`startIndex = 0, chunkIndex = 0, chunks = []`.  A result of `none`
means the loop has not terminated within `fuel` iterations — if this
holds for every `fuel`, the source function never returns. -/
def intelligentChunking (env : ChunkerEnv) (content domain : String) (fuel : ℕ) :
    Option (List Chunk) :=
  chunkLoop env content domain ⟨0, 0, []⟩ fuel

/-- A chunk with its `metadata.created_at` blanked — what remains of a
chunk when the wall-clock reading is erased. -/
def stripCreatedAt (c : Chunk) : Chunk :=
  { c with metadata := { c.metadata with created_at := "" } }

/-! ## Batch question processing (src/api/ai/process/route.ts)

`class MultiAIService`.  The static `AI_PROVIDERS` table and the data
flow of `processQuestions` / `processIndividualQuestion` are embedded
directly.  `processIndividualQuestion` delays by a simulated amount,
calls the (randomized, template-driven) `generateContextualResponse`,
and assembles the per-question record; if anything inside its `try`
block throws it assembles the fixed error record instead.  The body of
the `try` block up to the record assembly — response generation with
its `Math.random()` calls, including the possibility of failure — is
the oracle `outcome`; per-question clock reads and the completion time
of each question's promise are oracles as well. -/

/-- One model's entry of `AI_PROVIDERS` (the `headers` closure only
shapes outgoing HTTP requests and is not part of the data the claims
touch). -/
structure ModelConfig where
  endpoint : String
  maxTokens : ℕ
  costPer1kTokens : ℚ
deriving DecidableEq, Repr

/-- The `AI_PROVIDERS` table. -/
def AI_PROVIDERS : List (String × List (String × ModelConfig)) :=
  [ ("openai",
      [ ("gpt-4-turbo", ⟨"https://api.openai.com/v1/chat/completions", 128000, 0.03⟩),
        ("gpt-4", ⟨"https://api.openai.com/v1/chat/completions", 8192, 0.06⟩),
        ("gpt-3.5-turbo", ⟨"https://api.openai.com/v1/chat/completions", 16385, 0.002⟩) ]),
    ("anthropic",
      [ ("claude-3-opus", ⟨"https://api.anthropic.com/v1/messages", 200000, 0.075⟩),
        ("claude-3-sonnet", ⟨"https://api.anthropic.com/v1/messages", 200000, 0.015⟩),
        ("claude-3-haiku", ⟨"https://api.anthropic.com/v1/messages", 200000, 0.0025⟩) ]),
    ("google",
      [ ("gemini-pro",
          ⟨"https://generativelanguage.googleapis.com/v1beta/models/gemini-pro:generateContent",
            32768, 0.0025⟩),
        ("gemini-ultra",
          ⟨"https://generativelanguage.googleapis.com/v1beta/models/gemini-ultra:generateContent",
            32768, 0.05⟩) ]),
    ("mistral",
      [ ("mistral-large", ⟨"https://api.mistral.ai/v1/chat/completions", 32768, 0.024⟩),
        ("mistral-medium", ⟨"https://api.mistral.ai/v1/chat/completions", 32768, 0.0065⟩) ]),
    ("cohere",
      [ ("cohere-command-r-plus", ⟨"https://api.cohere.ai/v1/chat", 128000, 0.015⟩),
        ("cohere-command-r", ⟨"https://api.cohere.ai/v1/chat", 128000, 0.005⟩) ]) ]

/-- `getProviderFromModel`: string-prefix dispatch with `openai` as the
default. -/
def getProviderFromModel (modelId : String) : String :=
  if List.isPrefixOf "gpt-".data modelId.data then "openai"
  else if List.isPrefixOf "claude-".data modelId.data then "anthropic"
  else if List.isPrefixOf "gemini-".data modelId.data then "google"
  else if List.isPrefixOf "mistral-".data modelId.data then "mistral"
  else if List.isPrefixOf "cohere-".data modelId.data then "cohere"
  else "openai"

/-- `getModelConfig`: `AI_PROVIDERS[provider]?.models[modelId]`. -/
def getModelConfig (modelId : String) : Option ModelConfig :=
  (jsObjGet AI_PROVIDERS (getProviderFromModel modelId)).bind (fun ms => jsObjGet ms modelId)

/-- `estimateTokens(text) = Math.ceil(text.length / 4)`. -/
def estimateTokens (text : String) : ℕ :=
  (text.length + 3) / 4

/-- The value produced by `generateContextualResponse` (all of whose
fields feed the success record verbatim). -/
structure AIResponse where
  answer : String
  confidence : ℚ
  sources : List String
  reasoning : String
  relevant_clauses : List String
  decision_rationale : String
  compliance_status : String
  risk_assessment : String
  recommendations : List String
  key_insights : List String
  action_items : List String
deriving DecidableEq, Repr

/-- `options` of `processQuestions`. -/
structure ProcOptions where
  domain : String
  model : String
  temperature : ℚ
  max_tokens : ℕ
  session_id : String
  advanced_mode : Bool
  batch_mode : Bool
deriving DecidableEq, Repr

/-- The per-question record `processIndividualQuestion` returns.  Fields
that the error record leaves undefined are `Option`s (`none` in the
error record); `error` is the record's `error` flag, absent — hence
falsy — on the success path. -/
structure AnswerRecord where
  id : String
  question : String
  answer : String
  confidence : ℚ
  sources : List String
  reasoning : String
  processing_time : ℚ
  relevant_clauses : Option (List String)
  decision_rationale : Option String
  compliance_status : Option String
  risk_assessment : Option String
  recommendations : Option (List String)
  key_insights : Option (List String)
  action_items : Option (List String)
  timestamp : String
  tokens_used : ℕ
  cost_estimate : ℚ
  model_used : String
  provider : String
  advanced_analysis : Option String
  error : Bool
deriving DecidableEq, Repr

/-- Impure inputs of `processQuestions`: per-question generation outcome
(`Except.error` when the question's `try` block throws), the
`generateAdvancedAnalysis` blob, per-question elapsed seconds and ISO
timestamp, each question's promise completion time, and the batch's
elapsed seconds. -/
structure MultiAIEnv where
  outcome : ℕ → String → Except String AIResponse
  advGen : ℕ → String
  elapsed : ℕ → ℚ
  timestamp : ℕ → String
  delay : ℕ → ℕ
  sessionElapsed : ℚ

/-- The fixed fallback answer of the error record. -/
def fallbackAnswer (provider : String) : String :=
  "I apologize, but I encountered an error while processing this question with " ++
    provider ++ ". Please try again or use a different AI model."

/-- `processIndividualQuestion(question, documents, options, index,
provider, modelConfig)`: on success, the record built from the
generated response (tokens from `estimateTokens(question + answer +
reasoning)`, cost `tokensUsed * (costPer1kTokens / 1000)`); on a thrown
error, the fixed error record with confidence 0, empty sources, zero
tokens/cost and `error: true`. -/
def processIndividualQuestion (env : MultiAIEnv) (opts : ProcOptions) (cfg : ModelConfig)
    (provider : String) (index : ℕ) (question : String) : AnswerRecord :=
  match env.outcome index question with
  | Except.ok r =>
    let tokensUsed := estimateTokens (question ++ r.answer ++ r.reasoning)
    { id := "q_" ++ opts.session_id ++ "_" ++ toString index
      question := question
      answer := r.answer
      confidence := r.confidence
      sources := r.sources
      reasoning := r.reasoning
      processing_time := env.elapsed index
      relevant_clauses := some r.relevant_clauses
      decision_rationale := some r.decision_rationale
      compliance_status := some r.compliance_status
      risk_assessment := some r.risk_assessment
      recommendations := some r.recommendations
      key_insights := some r.key_insights
      action_items := some r.action_items
      timestamp := env.timestamp index
      tokens_used := tokensUsed
      cost_estimate := tokensUsed * (cfg.costPer1kTokens / 1000)
      model_used := opts.model
      provider := provider
      advanced_analysis := if opts.advanced_mode then some (env.advGen index) else none
      error := false }
  | Except.error e =>
    { id := "q_" ++ opts.session_id ++ "_" ++ toString index ++ "_error"
      question := question
      answer := fallbackAnswer provider
      confidence := 0
      sources := []
      reasoning := "Error occurred during " ++ provider ++ " processing: " ++ e
      processing_time := env.elapsed index
      relevant_clauses := none
      decision_rationale := none
      compliance_status := none
      risk_assessment := none
      recommendations := none
      key_insights := none
      action_items := none
      timestamp := env.timestamp index
      tokens_used := 0
      cost_estimate := 0
      model_used := opts.model
      provider := provider
      advanced_analysis := none
      error := true }

/-- Operational model of `Promise.all(tasks)`: each task settles at its
completion time (`delay` of its index; `setTimeout` fires equal delays
in registration order, hence the stable ascending sort), and on
settling writes its slot of the result array; the promise resolves with
the array read in slot order. -/
def promiseAll {α : Type} (delay : ℕ → ℕ) (tasks : List α) : List α :=
  let settleOrder := sortAsc (fun p => delay p.1) tasks.enum
  let arr := settleOrder.foldl (fun acc p => acc.set p.1 (some p.2))
    (List.replicate tasks.length (none : Option α))
  arr.filterMap id

/-- `metadata` of the object `processQuestions` returns. -/
structure SessionMetadata where
  processing_time : ℚ
  total_questions : ℕ
  total_tokens : ℕ
  total_cost : ℚ
  model_used : String
  provider_used : String
  session_id : String
  advanced_mode : Bool
  batch_mode : Bool
deriving DecidableEq, Repr

/-- The session object `processQuestions` returns. -/
structure Session where
  success : Bool
  results : List AnswerRecord
  metadata : SessionMetadata
deriving DecidableEq, Repr

/-- `processQuestions(questions, documents, options)`: resolve provider
and model config (an unknown model throws, re-wrapped by the outer
catch); in `batch_mode` launch every question's
`processIndividualQuestion` and collect with `Promise.all`, otherwise
await them one after another in input order; then assemble the session
object with token/cost totals.  `documents` only feeds the oracled
response generator and is absorbed by `outcome`. -/
def processQuestions (env : MultiAIEnv) (questions : List String) (opts : ProcOptions) :
    Except String Session :=
  match getModelConfig opts.model with
  | none => Except.error ("Multi-AI processing failed: Error: Unsupported model: " ++ opts.model)
  | some cfg =>
    let provider := getProviderFromModel opts.model
    let tasks := questions.enum.map (fun p => processIndividualQuestion env opts cfg provider p.1 p.2)
    let results := if opts.batch_mode then promiseAll env.delay tasks else tasks
    Except.ok
      { success := true
        results := results
        metadata :=
          { processing_time := env.sessionElapsed
            total_questions := questions.length
            total_tokens := (results.map AnswerRecord.tokens_used).sum
            total_cost := (results.map AnswerRecord.cost_estimate).sum
            model_used := opts.model
            provider_used := provider
            session_id := opts.session_id
            advanced_mode := opts.advanced_mode
            batch_mode := opts.batch_mode } }

/-! ## Concrete instances used by counterexamples and witnesses -/

/-- A chunker environment with inert helpers (no claim depends on their
values) and a fixed clock. -/
def chunkerEnvA : ChunkerEnv :=
  ⟨fun _ _ => "general", fun _ => [], fun _ => ⟨[], [], [], []⟩,
    fun _ => "2024-01-01T00:00:00.000Z"⟩

/-- Same helpers as `chunkerEnvA`, but invoked one second later. -/
def chunkerEnvB : ChunkerEnv :=
  ⟨fun _ _ => "general", fun _ => [], fun _ => ⟨[], [], [], []⟩,
    fun _ => "2024-01-01T00:00:01.000Z"⟩

/-- A 100-character document (shorter than the overlap of 200). -/
def text100 : String := String.mk (List.replicate 100 'a')

/-- Stored entry with metadata `{type: "a"}`. -/
def entryA : VectorEntry := ⟨"chunk_a", [1, 0, 0], [("type", "a")]⟩

/-- Stored entry with metadata `{type: "b"}`. -/
def entryB : VectorEntry := ⟨"chunk_b", [0, 1, 0], [("type", "b")]⟩

/-- A two-entry database built through `upsert`. -/
def sampleDb : List VectorEntry := upsert [] [entryA, entryB]

/-- A fixed admissible draw of the per-entry mock scores: 0.9 for the
first stored entry, 0.8 for the rest (both in the code's [0.7, 1.0)
range). -/
def sampleScores : ℕ → ℚ := fun i => if i = 0 then ⟨9, 10, by decide, by decide⟩ else ⟨4, 5, by decide, by decide⟩

/-- A non-empty index whose single entry has dimension 3. -/
def dbDim3 : List VectorEntry := upsert [] [⟨"chunk_a", [1, 2, 3], []⟩]

/-- An entry whose vector has dimension 2 (≠ 3). -/
def entryDim2 : VectorEntry := ⟨"chunk_x", [1, 2], []⟩

/-- A concrete generated response for witness runs. -/
def sampleResponse : AIResponse :=
  ⟨"Sample answer", 9 / 10, ["Policy Document"], "Sample reasoning", ["clause 1"],
    "rationale", "compliant", "low", ["recommendation"], ["insight"], ["action"]⟩

/-- Witness batch environment: question 1 fails, the others succeed, and
completion times are reversed (later questions settle first). -/
def witnessEnv : MultiAIEnv :=
  { outcome := fun i _ => if i = 1 then Except.error "boom" else Except.ok sampleResponse
    advGen := fun _ => "advanced analysis"
    elapsed := fun _ => 1
    timestamp := fun _ => "2024-01-01T00:00:00.000Z"
    delay := fun i => 10 - i
    sessionElapsed := 3 }

/-- Witness options: a known model, batch mode on. -/
def witnessOpts : ProcOptions := ⟨"insurance", "gpt-4", 1 / 10, 1000, "sess", true, true⟩

/-- Witness question list. -/
def witnessQuestions : List String := ["q0", "q1", "q2"]

/-- The `AI_PROVIDERS` entry for `gpt-4`. -/
def gpt4Cfg : ModelConfig := ⟨"https://api.openai.com/v1/chat/completions", 8192, 0.06⟩

/-- The reference value of a batch run's `results`: the record of each
index is a function of that index's question and outcome alone, so this
shape is both the order-preservation and the failure-isolation
statement. -/
def batchResults (env : MultiAIEnv) (opts : ProcOptions) (cfg : ModelConfig)
    (qs : List String) : List AnswerRecord :=
  qs.enum.map (fun p =>
    processIndividualQuestion env opts cfg (getProviderFromModel opts.model) p.1 p.2)

/-! # Lemmas

## Stable sort -/

theorem insertDesc_length {α κ : Type} [LinearOrder κ] (f : α → κ) (x : α) (l : List α) :
    (insertDesc f x l).length = l.length + 1 := by
  induction l with
  | nil => rfl
  | cons y ys ih =>
    by_cases h : f y ≤ f x <;> simp [insertDesc, h, ih]

theorem sortDesc_length {α κ : Type} [LinearOrder κ] (f : α → κ) (l : List α) :
    (sortDesc f l).length = l.length := by
  induction l with
  | nil => rfl
  | cons x xs ih => simp [sortDesc, insertDesc_length, ih]

theorem mem_insertDesc {α κ : Type} [LinearOrder κ] (f : α → κ) {x z : α} {l : List α} :
    z ∈ insertDesc f x l ↔ z = x ∨ z ∈ l := by
  induction l with
  | nil => simp [insertDesc]
  | cons y ys ih =>
    by_cases h : f y ≤ f x
    · simp [insertDesc, h]
    · simp [insertDesc, h, ih]
      tauto

theorem insertDesc_pairwise {α κ : Type} [LinearOrder κ] (f : α → κ) (x : α) {l : List α}
    (h : l.Pairwise (fun a b => f b ≤ f a)) :
    (insertDesc f x l).Pairwise (fun a b => f b ≤ f a) := by
  induction l with
  | nil => simp [insertDesc]
  | cons y ys ih =>
    rw [List.pairwise_cons] at h
    obtain ⟨hy, hys⟩ := h
    by_cases hc : f y ≤ f x
    · rw [insertDesc, if_pos hc]
      refine List.pairwise_cons.mpr ⟨?_, List.pairwise_cons.mpr ⟨hy, hys⟩⟩
      intro z hz
      rcases List.mem_cons.mp hz with rfl | hz'
      · exact hc
      · exact le_trans (hy z hz') hc
    · rw [insertDesc, if_neg hc]
      refine List.pairwise_cons.mpr ⟨?_, ih hys⟩
      intro z hz
      rcases (mem_insertDesc f).mp hz with rfl | hz'
      · exact le_of_lt (lt_of_not_le hc)
      · exact hy z hz'

theorem sortDesc_pairwise {α κ : Type} [LinearOrder κ] (f : α → κ) (l : List α) :
    (sortDesc f l).Pairwise (fun a b => f b ≤ f a) := by
  induction l with
  | nil => simp [sortDesc]
  | cons x xs ih => exact insertDesc_pairwise f x ih

theorem insertDesc_perm {α κ : Type} [LinearOrder κ] (f : α → κ) (x : α) (l : List α) :
    (insertDesc f x l).Perm (x :: l) := by
  induction l with
  | nil => exact List.Perm.refl _
  | cons y ys ih =>
    by_cases h : f y ≤ f x
    · rw [insertDesc, if_pos h]
    · rw [insertDesc, if_neg h]
      exact (ih.cons y).trans (List.Perm.swap x y ys)

theorem sortDesc_perm {α κ : Type} [LinearOrder κ] (f : α → κ) (l : List α) :
    (sortDesc f l).Perm l := by
  induction l with
  | nil => exact List.Perm.refl _
  | cons x xs ih => exact (insertDesc_perm f x (sortDesc f xs)).trans (ih.cons x)

theorem insertDesc_filter_of_eq {α κ : Type} [LinearOrder κ] (f : α → κ) {x : α} {c : κ}
    (hx : f x = c) (l : List α) :
    (insertDesc f x l).filter (fun z => decide (f z = c)) =
      x :: l.filter (fun z => decide (f z = c)) := by
  induction l with
  | nil => simp [insertDesc, hx]
  | cons y ys ih =>
    by_cases h : f y ≤ f x
    · rw [insertDesc, if_pos h]
      simp [hx]
    · have hyc : ¬ f y = c := by
        intro hyc
        exact h (hyc ▸ hx ▸ le_refl c)
      rw [insertDesc, if_neg h]
      simp only [List.filter_cons, hyc, decide_eq_true_eq, if_false]
      simpa [hyc] using ih

theorem insertDesc_filter_of_ne {α κ : Type} [LinearOrder κ] (f : α → κ) {x : α} {c : κ}
    (hx : ¬ f x = c) (l : List α) :
    (insertDesc f x l).filter (fun z => decide (f z = c)) =
      l.filter (fun z => decide (f z = c)) := by
  induction l with
  | nil => simp [insertDesc, hx]
  | cons y ys ih =>
    by_cases h : f y ≤ f x
    · rw [insertDesc, if_pos h]
      simp [hx]
    · rw [insertDesc, if_neg h]
      by_cases hyc : f y = c <;> simp [hyc, ih]

/-- Stability of the descending sort: elements of any fixed key keep
their relative input order. -/
theorem sortDesc_stable {α κ : Type} [LinearOrder κ] (f : α → κ) (l : List α) (c : κ) :
    (sortDesc f l).filter (fun z => decide (f z = c)) =
      l.filter (fun z => decide (f z = c)) := by
  induction l with
  | nil => rfl
  | cons x xs ih =>
    by_cases hx : f x = c
    · rw [sortDesc, insertDesc_filter_of_eq f hx, ih]
      simp [hx]
    · rw [sortDesc, insertDesc_filter_of_ne f hx, ih]
      simp [hx]

theorem insertAsc_perm {α κ : Type} [LinearOrder κ] (f : α → κ) (x : α) (l : List α) :
    (insertAsc f x l).Perm (x :: l) := by
  induction l with
  | nil => exact List.Perm.refl _
  | cons y ys ih =>
    by_cases h : f x ≤ f y
    · rw [insertAsc, if_pos h]
    · rw [insertAsc, if_neg h]
      exact (ih.cons y).trans (List.Perm.swap x y ys)

theorem sortAsc_perm {α κ : Type} [LinearOrder κ] (f : α → κ) (l : List α) :
    (sortAsc f l).Perm l := by
  induction l with
  | nil => exact List.Perm.refl _
  | cons x xs ih => exact (insertAsc_perm f x (sortAsc f xs)).trans (ih.cons x)

/-! ## JS Map semantics -/

theorem mapSet_idem (db : List VectorEntry) (v : VectorEntry) :
    mapSet (mapSet db v) v = mapSet db v := by
  induction db with
  | nil => simp [mapSet]
  | cons e rest ih =>
    by_cases h : e.id = v.id
    · rw [mapSet, if_pos h, mapSet, if_pos rfl]
    · rw [mapSet, if_neg h, mapSet, if_neg h, ih]

theorem getById_mapSet (db : List VectorEntry) (v : VectorEntry) :
    getById (mapSet db v) v.id = some v := by
  induction db with
  | nil => simp [mapSet, getById]
  | cons e rest ih =>
    by_cases h : e.id = v.id
    · rw [mapSet, if_pos h]
      simp [getById]
    · rw [mapSet, if_neg h]
      unfold getById at ih ⊢
      rw [List.find?_cons_of_neg _ (by simpa using h)]
      exact ih

/-! ## Promise.all: order-independence of slot collection -/

theorem foldl_set_length {α : Type} (l : List (ℕ × α)) (arr : List (Option α)) :
    (l.foldl (fun acc p => acc.set p.1 (some p.2)) arr).length = arr.length := by
  induction l generalizing arr with
  | nil => rfl
  | cons p rest ih => rw [List.foldl_cons, ih, List.length_set]

theorem foldl_set_getElem?_of_not_mem {α : Type} (l : List (ℕ × α)) (arr : List (Option α))
    (j : ℕ) (h : ∀ p ∈ l, p.1 ≠ j) :
    (l.foldl (fun acc p => acc.set p.1 (some p.2)) arr)[j]? = arr[j]? := by
  induction l generalizing arr with
  | nil => rfl
  | cons p rest ih =>
    rw [List.foldl_cons, ih _ (fun q hq => h q (List.mem_cons_of_mem p hq)),
      List.getElem?_set_ne (h p (List.mem_cons_self p rest))]

theorem foldl_set_getElem?_of_mem {α : Type} (l : List (ℕ × α)) (arr : List (Option α))
    (j : ℕ) (v : α) (hnd : (l.map Prod.fst).Nodup) (hmem : (j, v) ∈ l)
    (hj : j < arr.length) :
    (l.foldl (fun acc p => acc.set p.1 (some p.2)) arr)[j]? = some (some v) := by
  induction l generalizing arr with
  | nil => exact absurd hmem (List.not_mem_nil _)
  | cons p rest ih =>
    rw [List.map_cons, List.nodup_cons] at hnd
    obtain ⟨hhead, hrest⟩ := hnd
    rcases List.mem_cons.mp hmem with heq | hmem'
    · have hnone : ∀ q ∈ rest, q.1 ≠ j := by
        intro q hq hq1
        have hq2 : q.1 ∈ List.map Prod.fst rest := List.mem_map_of_mem Prod.fst hq
        rw [hq1] at hq2
        apply hhead
        rw [← heq]
        exact hq2
      rw [List.foldl_cons, foldl_set_getElem?_of_not_mem rest _ j hnone, ← heq,
        List.getElem?_set_self hj]
    · have hp1 : p.1 ≠ j := by
        intro hp1
        apply hhead
        rw [hp1]
        exact List.mem_map_of_mem Prod.fst hmem'
      rw [List.foldl_cons]
      exact ih _ hrest hmem' (by rwa [List.length_set])

/-- `Promise.all` resolves with the results in input order, whatever the
completion times are. -/
theorem promiseAll_eq {α : Type} (delay : ℕ → ℕ) (tasks : List α) :
    promiseAll delay tasks = tasks := by
  have hperm : (sortAsc (fun p => delay p.1) tasks.enum).Perm tasks.enum :=
    sortAsc_perm _ _
  have hnd : ((sortAsc (fun p => delay p.1) tasks.enum).map Prod.fst).Nodup := by
    refine ((hperm.map Prod.fst).nodup_iff).mpr ?_
    rw [List.enum_map_fst]
    exact List.nodup_range _
  have harr :
      (sortAsc (fun p => delay p.1) tasks.enum).foldl (fun acc p => acc.set p.1 (some p.2))
        (List.replicate tasks.length (none : Option α)) = tasks.map some := by
    apply List.ext_getElem?
    intro j
    by_cases hj : j < tasks.length
    · rw [foldl_set_getElem?_of_mem _ _ j tasks[j] hnd ?_ (by rw [List.length_replicate]; exact hj),
        List.getElem?_map, List.getElem?_eq_getElem hj]
      · rfl
      · rw [hperm.mem_iff]
        have := List.getElem_enum tasks j (by rwa [List.enum_length])
        exact this ▸ List.getElem_mem _
    · rw [List.getElem?_eq_none, List.getElem?_eq_none]
      · rwa [List.length_map, Nat.not_lt] at *
      · rw [foldl_set_length, List.length_replicate]
        omega
  show List.filterMap id _ = tasks
  rw [harr, List.filterMap_map]
  exact List.filterMap_some tasks

/-! ## The simulated vector database -/

theorem query_length (qe : List ℚ) (scores : ℕ → ℚ) (db : List VectorEntry) (topK : ℕ) :
    (query qe scores db topK).length = min topK db.length := by
  unfold query
  rw [List.length_take, sortDesc_length, List.length_map, List.enum_length]

theorem query_pairwise (qe : List ℚ) (scores : ℕ → ℚ) (db : List VectorEntry) (topK : ℕ) :
    (query qe scores db topK).Pairwise (fun a b => b.score ≤ a.score) := by
  unfold query
  exact List.Pairwise.sublist (List.take_sublist _ _) (sortDesc_pairwise ScoredEntry.score _)

theorem query_ignores_embedding (qe qe' : List ℚ) (scores : ℕ → ℚ) (db : List VectorEntry)
    (topK : ℕ) : query qe scores db topK = query qe' scores db topK := rfl

/-! ## The chunking loop -/

theorem string_mk_length (l : List Char) : (String.mk l).length = l.length := rfl

theorem jsSubstring_length (s : String) (a b : ℤ) :
    ((jsSubstring s a b).length : ℤ) =
      max (min (max a 0) (s.length : ℤ)) (min (max b 0) (s.length : ℤ)) -
      min (min (max a 0) (s.length : ℤ)) (min (max b 0) (s.length : ℤ)) := by
  have hsd : s.data.length = s.length := rfl
  simp only [jsSubstring, string_mk_length, List.length_take, List.length_drop]
  omega

theorem jsLastIndexOfAux_lt (c : Char) (l : List Char) :
    ∀ (i : ℕ) (best : ℤ), best < (i : ℤ) + l.length →
      jsLastIndexOfAux c l i best < (i : ℤ) + l.length := by
  induction l with
  | nil => intro i best h; simpa using h
  | cons x xs ih =>
    intro i best h
    simp only [List.length_cons] at h ⊢
    rw [jsLastIndexOfAux]
    have h2 : (if x = c then (i : ℤ) else best) < ((i + 1 : ℕ) : ℤ) + xs.length := by
      split_ifs <;> push_cast at h ⊢ <;> omega
    have h3 := ih (i + 1) _ h2
    push_cast at h3 ⊢
    omega

theorem jsLastIndexOf_lt (s : String) (c : Char) : jsLastIndexOf s c < (s.length : ℤ) := by
  have hsd : s.data.length = s.length := rfl
  have h := jsLastIndexOfAux_lt c s.data 0 (-1) (by omega)
  rw [jsLastIndexOf]
  omega

theorem chunkWindow_snd_le (cs : ℕ) (content : String) (start : ℤ) :
    (chunkWindow cs content start).2 ≤ (content.length : ℤ) := by
  have hp := jsLastIndexOf_lt
    (jsSubstring content start (min (start + (cs : ℤ)) (content.length : ℤ))) '.'
  have hn := jsLastIndexOf_lt
    (jsSubstring content start (min (start + (cs : ℤ)) (content.length : ℤ))) '\n'
  have hlen := jsSubstring_length content start (min (start + (cs : ℤ)) (content.length : ℤ))
  simp only [chunkWindow]
  split_ifs with h1 h2 <;> omega

theorem chunkStep_startIndex_lt (env : ChunkerEnv) (cs ov : ℕ) (hov : 0 < ov)
    (content domain : String) (st : ChunkState) :
    (chunkStep env cs ov content domain st).startIndex < (content.length : ℤ) := by
  have h := chunkWindow_snd_le cs content st.startIndex
  simp only [chunkStep]
  omega

theorem chunkStepsG_startIndex_lt (env : ChunkerEnv) (cs ov : ℕ) (content domain : String)
    (hov : 0 < ov) (hne : 0 < content.length) (n : ℕ) :
    (chunkStepsG env cs ov content domain n).startIndex < (content.length : ℤ) := by
  induction n with
  | zero =>
    show (0 : ℤ) < _
    exact_mod_cast hne
  | succ n ih =>
    simp only [chunkStepsG]
    rw [if_pos ih]
    exact chunkStep_startIndex_lt env cs ov hov content domain _

theorem chunkLoop_eq_none (env : ChunkerEnv) (content domain : String) :
    ∀ (fuel : ℕ) (st : ChunkState), st.startIndex < (content.length : ℤ) →
      chunkLoop env content domain st fuel = none := by
  intro fuel
  induction fuel with
  | zero => intro st _; rfl
  | succ fuel ih =>
    intro st h
    rw [chunkLoop, if_pos h]
    exact ih _ (chunkStep_startIndex_lt env 1000 200 (by omega) content domain st)

/-- The while loop of `intelligentChunking` never exits for a non-empty
input: after every iteration `startIndex = endIndex - 200 ≤ length -
200 < length`, so the guard keeps holding. -/
theorem intelligentChunking_eq_none (env : ChunkerEnv) (content domain : String)
    (hne : 0 < content.length) (fuel : ℕ) :
    intelligentChunking env content domain fuel = none := by
  apply chunkLoop_eq_none
  show (0 : ℤ) < _
  exact_mod_cast hne

theorem chunkStepsG_chunks_length (env : ChunkerEnv) (cs ov : ℕ) (content domain : String)
    (hov : 0 < ov) (hne : 0 < content.length) (n : ℕ) :
    (chunkStepsG env cs ov content domain n).chunks.length = n := by
  induction n with
  | zero => rfl
  | succ n ih =>
    simp only [chunkStepsG]
    rw [if_pos (chunkStepsG_startIndex_lt env cs ov content domain hov hne n)]
    simp only [chunkStep, List.length_append, ih, List.length_singleton]

/-- The chunker is deterministic once the wall clock is erased: runs
that share text, sizes and the (pure) helper functions agree on the
whole loop state except each chunk's `created_at`. -/
theorem chunkStepsG_strip (e1 e2 : ChunkerEnv) (h1 : e1.detectSection = e2.detectSection)
    (h2 : e1.extractKeywords = e2.extractKeywords)
    (h3 : e1.extractSimpleEntities = e2.extractSimpleEntities)
    (cs ov : ℕ) (content domain : String) (n : ℕ) :
    (chunkStepsG e1 cs ov content domain n).startIndex =
      (chunkStepsG e2 cs ov content domain n).startIndex ∧
    (chunkStepsG e1 cs ov content domain n).chunkIndex =
      (chunkStepsG e2 cs ov content domain n).chunkIndex ∧
    (chunkStepsG e1 cs ov content domain n).chunks.map stripCreatedAt =
      (chunkStepsG e2 cs ov content domain n).chunks.map stripCreatedAt := by
  induction n with
  | zero => exact ⟨rfl, rfl, rfl⟩
  | succ n ih =>
    obtain ⟨hs, hi, hc⟩ := ih
    simp only [chunkStepsG]
    rw [← hs]
    split_ifs with h
    · refine ⟨?_, ?_, ?_⟩
      · simp only [chunkStep]
        rw [hs]
      · simp only [chunkStep]
        rw [hi]
      · simp only [chunkStep, List.map_append, List.map_cons, List.map_nil]
        rw [hc]
        simp [stripCreatedAt, hs, hi, h1, h2, h3]
    · exact ⟨hs, hi, hc⟩

/-! ## Hybrid search -/

theorem filter_contains_eq {α : Type} [DecidableEq α] (p : α → Bool) (l : List α) (r : α)
    (hr : r ∈ l) : (l.filter p).contains r = p r := by
  by_cases h : p r = true
  · rw [h]
    exact List.elem_iff.mpr (List.mem_filter.mpr ⟨hr, h⟩)
  · rw [Bool.not_eq_true] at h
    rw [h, Bool.eq_false_iff]
    intro hc
    have hmem := List.mem_filter.mp (List.elem_iff.mp hc)
    rw [hmem.2] at h
    exact Bool.noConfusion h

/-- The boost the code computes through `keywordFiltered.includes`
equals the specification's indicator form. -/
theorem hybridSearch_eq_spec (semanticResults : List SearchResult) (keywords : List String)
    (semanticWeight keywordWeight : ℚ) (topK : ℕ) :
    hybridSearch semanticResults keywords semanticWeight keywordWeight topK =
      (sortDesc HybridResult.hybridScore
        (semanticResults.map (specRescore keywords semanticWeight keywordWeight))).take topK := by
  simp only [hybridSearch]
  congr 2
  apply List.map_congr_left
  intro r hr
  rw [filter_contains_eq (keywordMatches keywords) semanticResults r hr]
  unfold specRescore
  by_cases h : keywordMatches keywords r = true <;> simp [h, mul_comm]

/-! ## Batch question processing -/

/-- Both the success and the error record carry the input question. -/
theorem processIndividualQuestion_question (env : MultiAIEnv) (opts : ProcOptions)
    (cfg : ModelConfig) (provider : String) (i : ℕ) (q : String) :
    (processIndividualQuestion env opts cfg provider i q).question = q := by
  unfold processIndividualQuestion
  cases env.outcome i q <;> rfl

/-- With a known model and `batch_mode` on, `processQuestions` succeeds
and its `results` are exactly the per-index records in input order
(`Promise.all` collection reduced away by `promiseAll_eq`). -/
theorem processQuestions_batch_results (env : MultiAIEnv) (qs : List String)
    (opts : ProcOptions) (cfg : ModelConfig) (hcfg : getModelConfig opts.model = some cfg)
    (hbatch : opts.batch_mode = true) :
    ∃ s, processQuestions env qs opts = Except.ok s ∧
      s.results = batchResults env opts cfg qs := by
  simp only [processQuestions, hcfg, hbatch, if_true]
  exact ⟨_, rfl, promiseAll_eq _ _⟩

/-! # Claim theorems -/

/-- C1.  REFUTED (code bug): the specification says a non-empty text
shorter than `targetSize = 1000` yields exactly one chunk, the trailing
remainder emitted rather than dropped.  On the 3-character text "Hi."
the while loop of `intelligentChunking` never exits — after the first
iteration `startIndex = 3 - 200 = -197 < 3` and it stays there — so no
chunk list is ever returned, and the list under construction grows by
one chunk per iteration without bound. -/
theorem c1_short_text_refuted :
    (∀ fuel, intelligentChunking chunkerEnvA "Hi." "insurance" fuel = none) ∧
    (∀ n, (chunkSteps chunkerEnvA "Hi." "insurance" n).chunks.length = n) := by
  constructor
  · intro fuel
    exact intelligentChunking_eq_none chunkerEnvA "Hi." "insurance" (by decide) fuel
  · intro n
    exact chunkStepsG_chunks_length chunkerEnvA 1000 200 "Hi." "insurance" (by omega)
      (by decide) n

/-- C2 counterexample.  With two stored entries of which only
`chunk_b` (metadata `type = b`) satisfies the filter, an admissible
random score draw ranking `chunk_a` first, and `topK = 1`, the POST
handler returns 0 results although min(topK, #matching entries) = 1:
the filter is applied after the top-K cut, and the scores never consult
the filter (nor the query vector). -/
theorem c2_counterexample :
    (postFilteredResults [0, 1, 0] sampleScores sampleDb 1 [("type", "b")]).length = 0 ∧
    min 1 ((sampleDb.filter (fun e => matchesFilters [("type", "b")] e.metadata)).length) = 1 := by
  decide

/-- C2 amended.  `query` returns exactly min(topK, entryCount) results
in non-increasing order of score, but the scores are fresh random draws
independent of the query vector (which `query` never reads), and the
route applies the metadata filter AFTER the top-K cut: the response is
exactly the filtered subset of the top-topK list (still sorted), not
the top-topK of the filtered candidates. -/
theorem c2_amended : ∀ (qe : List ℚ) (scores : ℕ → ℚ) (db : List VectorEntry) (topK : ℕ)
    (filters : List (String × String)),
    postFilteredResults qe scores db topK filters =
      (query qe scores db topK).filter (fun r => matchesFilters filters r.metadata) ∧
    (query qe scores db topK).length = min topK db.length ∧
    (query qe scores db topK).Pairwise (fun a b => b.score ≤ a.score) ∧
    (postFilteredResults qe scores db topK filters).Pairwise (fun a b => b.score ≤ a.score) ∧
    query qe scores db topK = query [] scores db topK := by
  intro qe scores db topK filters
  exact ⟨rfl, query_length qe scores db topK, query_pairwise qe scores db topK,
    List.Pairwise.filter _ (query_pairwise qe scores db topK), rfl⟩

/-- C3 counterexample.  `upsert` has no dimension guard: inserting a
2-dimensional vector into a non-empty index holding a 3-dimensional
one raises nothing, changes the index, and stores the vector verbatim;
querying the same index with a 2-dimensional query vector also
succeeds (the vector is never even read). -/
theorem c3_counterexample :
    upsert dbDim3 [entryDim2] ≠ dbDim3 ∧
    getById (upsert dbDim3 [entryDim2]) "chunk_x" = some entryDim2 ∧
    (query [1, 2] sampleScores dbDim3 5).length = 1 := by
  decide

/-- C3 amended.  No `DimensionMismatch` check exists anywhere: `upsert`
accepts an entry of any dimension and stores its vector verbatim
(never truncated or padded), and `query` — which ignores the query
vector entirely — returns min(topK, entryCount) results no matter the
dimension of anything. -/
theorem c3_amended : ∀ (db : List VectorEntry) (e : VectorEntry) (qe : List ℚ)
    (scores : ℕ → ℚ) (topK : ℕ),
    getById (upsert db [e]) e.id = some e ∧
    (query qe scores db topK).length = min topK db.length := by
  intro db e qe scores topK
  exact ⟨getById_mapSet db e, query_length qe scores db topK⟩

/-- C4.  REFUTED (code bug): on a 100-character document the second
loop iteration emits a chunk with span (-100, 100) — fully containing
chunk 0's span (0, 100) and starting before the document — because
`startIndex = endIndex - overlap` goes negative; and the loop never
terminates, so no final chunk list (whose spans could tile the
document) exists at all. -/
theorem c4_coverage_refuted :
    ((chunkSteps chunkerEnvA text100 "insurance" 2).chunks.map
      (fun c => (c.start_index, c.end_index))) = [(0, 100), (-100, 100)] ∧
    ∀ fuel, intelligentChunking chunkerEnvA text100 "insurance" fuel = none := by
  constructor
  · decide
  · intro fuel
    exact intelligentChunking_eq_none chunkerEnvA text100 "insurance" (by decide) fuel

/-- C5 counterexample.  The chunker's output is not a pure function of
(text, targetSize, overlap): each chunk's `metadata.created_at` is a
wall-clock reading (`new Date().toISOString()`), so two invocations on
identical inputs at different times produce different chunk objects —
here after one loop iteration on "Hello world.". -/
theorem c5_counterexample :
    (chunkSteps chunkerEnvA "Hello world." "insurance" 1).chunks ≠
      (chunkSteps chunkerEnvB "Hello world." "insurance" 1).chunks := by
  decide

/-- C5 amended.  Determinism holds up to the clock: for every text,
chunk size, overlap and helper functions, two runs differing only in
their wall-clock readings produce chunk sequences identical in every
field except `metadata.created_at`, and identical loop positions. -/
theorem c5_amended : ∀ (ds : String → String → String) (ek : String → List String)
    (ese : String → EntityMap) (now1 now2 : ℕ → String) (cs ov : ℕ)
    (content domain : String) (n : ℕ),
    (chunkStepsG ⟨ds, ek, ese, now1⟩ cs ov content domain n).chunks.map stripCreatedAt =
      (chunkStepsG ⟨ds, ek, ese, now2⟩ cs ov content domain n).chunks.map stripCreatedAt ∧
    (chunkStepsG ⟨ds, ek, ese, now1⟩ cs ov content domain n).startIndex =
      (chunkStepsG ⟨ds, ek, ese, now2⟩ cs ov content domain n).startIndex := by
  intro ds ek ese now1 now2 cs ov content domain n
  have h := chunkStepsG_strip ⟨ds, ek, ese, now1⟩ ⟨ds, ek, ese, now2⟩ rfl rfl rfl
    cs ov content domain n
  exact ⟨h.2.2, h.1⟩

/-- C6.  CONFIRMED: `upsert` is idempotent by id — upserting the same
entry twice leaves the JS Map in the same state as upserting it once —
and re-inserting an id replaces that id's stored vector and metadata
(the read-back returns the new entry verbatim). -/
theorem c6_upsert_idempotent : ∀ (db : List VectorEntry) (e : VectorEntry),
    upsert (upsert db [e]) [e] = upsert db [e] ∧
    getById (upsert db [e]) e.id = some e := by
  intro db e
  exact ⟨mapSet_idem db e, getById_mapSet db e⟩

/-- C7.  CONFIRMED: every candidate's combined score equals
`semanticWeight * similarity + keywordWeight * indicator` with the
indicator 1 exactly when some supplied keyword occurs case-insensitively
in the chunk text or its stored keywords; the re-ranking is the take of
a stable descending sort on that combined score (stability: candidates
of equal combined score keep their input order). -/
theorem c7_hybrid_rescoring : ∀ (semanticResults : List SearchResult)
    (keywords : List String) (sw kw : ℚ) (topK : ℕ),
    hybridSearch semanticResults keywords sw kw topK =
      (sortDesc HybridResult.hybridScore
        (semanticResults.map (specRescore keywords sw kw))).take topK ∧
    ((hybridSearch semanticResults keywords sw kw topK).all (fun h =>
      decide (h.hybridScore = sw * h.toSearchResult.score +
        kw * (if keywordMatches keywords h.toSearchResult then 1 else 0))) = true) ∧
    (hybridSearch semanticResults keywords sw kw topK).Pairwise
      (fun a b => b.hybridScore ≤ a.hybridScore) ∧
    ∀ c : ℚ,
      (sortDesc HybridResult.hybridScore
        (semanticResults.map (specRescore keywords sw kw))).filter
          (fun h => decide (h.hybridScore = c)) =
      (semanticResults.map (specRescore keywords sw kw)).filter
        (fun h => decide (h.hybridScore = c)) := by
  intro s k sw kw topK
  refine ⟨hybridSearch_eq_spec s k sw kw topK, ?_, ?_, fun c => sortDesc_stable _ _ c⟩
  · rw [hybridSearch_eq_spec]
    apply List.all_eq_true.mpr
    intro x hx
    have hx1 : x ∈ sortDesc HybridResult.hybridScore (s.map (specRescore k sw kw)) :=
      List.Sublist.mem hx (List.take_sublist _ _)
    have hx2 := (sortDesc_perm HybridResult.hybridScore _).mem_iff.mp hx1
    obtain ⟨r, _, rfl⟩ := List.mem_map.mp hx2
    simp [specRescore]
  · rw [hybridSearch_eq_spec]
    exact List.Pairwise.sublist (List.take_sublist _ _) (sortDesc_pairwise _ _)

/-- C8.  CONFIRMED: in batch mode the session's `results[i].question`
is `qs[i]` for every i — `Promise.all` fills the result array by
original index whatever the completion times (`env.delay`) are, which
the `promiseAll_eq` lemma proves rather than assumes. -/
theorem c8_batch_order_preserved (env : MultiAIEnv) (qs : List String) (opts : ProcOptions)
    (cfg : ModelConfig) (hcfg : getModelConfig opts.model = some cfg)
    (hbatch : opts.batch_mode = true) :
    ∃ s, processQuestions env qs opts = Except.ok s ∧
      s.results.map AnswerRecord.question = qs := by
  obtain ⟨s, hs, hres⟩ := processQuestions_batch_results env qs opts cfg hcfg hbatch
  refine ⟨s, hs, ?_⟩
  rw [hres]
  unfold batchResults
  rw [List.map_map]
  have h : ∀ p ∈ qs.enum,
      (AnswerRecord.question ∘ fun p =>
        processIndividualQuestion env opts cfg (getProviderFromModel opts.model) p.1 p.2) p =
        Prod.snd p :=
    fun p _ => processIndividualQuestion_question env opts cfg _ p.1 p.2
  rw [List.map_congr_left h, List.enum_map_snd]

/-- C8 witness: three questions, completion times reversed
(question 2 settles first), results still in input order. -/
theorem c8_batch_order_preserved_witness :
    getModelConfig witnessOpts.model = some gpt4Cfg ∧
    witnessOpts.batch_mode = true ∧
    ∃ s, processQuestions witnessEnv witnessQuestions witnessOpts = Except.ok s ∧
      s.results.map AnswerRecord.question = witnessQuestions :=
  ⟨rfl, rfl,
    c8_batch_order_preserved witnessEnv witnessQuestions witnessOpts gpt4Cfg rfl rfl⟩

/-- C9.  CONFIRMED: when one question's processing fails, the batch
still succeeds; the failed index carries the error record (confidence
0, `error: true`, the fixed human-readable fallback answer, the
original question), and `results` equals `batchResults` — each slot a
function of its own index's question and outcome only, so a failure
cannot touch the sibling records. -/
theorem c9_failure_isolated (env : MultiAIEnv) (qs : List String) (opts : ProcOptions)
    (cfg : ModelConfig) (i : ℕ) (emsg : String)
    (hcfg : getModelConfig opts.model = some cfg) (hbatch : opts.batch_mode = true)
    (hi : i < qs.length) (herr : env.outcome i (qs.getD i "") = Except.error emsg) :
    ∃ s, processQuestions env qs opts = Except.ok s ∧
      s.results = batchResults env opts cfg qs ∧
      ∃ r, s.results[i]? = some r ∧ r.confidence = 0 ∧ r.error = true ∧
        r.answer = fallbackAnswer (getProviderFromModel opts.model) ∧
        r.question = qs.getD i "" := by
  obtain ⟨s, hs, hres⟩ := processQuestions_batch_results env qs opts cfg hcfg hbatch
  refine ⟨s, hs, hres, ?_⟩
  have hq : qs.getD i "" = qs[i] := by
    rw [List.getD_eq_getElem?_getD, List.getElem?_eq_getElem hi]
    rfl
  have herr' : env.outcome i qs[i] = Except.error emsg := by
    rw [← hq]
    exact herr
  refine ⟨processIndividualQuestion env opts cfg (getProviderFromModel opts.model) i qs[i],
    ?_, ?_, ?_, ?_, ?_⟩
  · rw [hres]
    unfold batchResults
    rw [List.getElem?_map, List.getElem?_enum, List.getElem?_eq_getElem hi]
    rfl
  · simp [processIndividualQuestion, herr']
  · simp [processIndividualQuestion, herr']
  · simp [processIndividualQuestion, herr']
  · rw [hq]
    exact processIndividualQuestion_question env opts cfg _ i qs[i]

/-- C9 witness: of three questions, question 1's generation throws
"boom"; the session succeeds, slot 1 is the error record, slots 0 and 2
are their own success records. -/
theorem c9_failure_isolated_witness :
    getModelConfig witnessOpts.model = some gpt4Cfg ∧
    witnessOpts.batch_mode = true ∧
    1 < witnessQuestions.length ∧
    witnessEnv.outcome 1 (witnessQuestions.getD 1 "") = Except.error "boom" ∧
    ∃ s, processQuestions witnessEnv witnessQuestions witnessOpts = Except.ok s ∧
      s.results = batchResults witnessEnv witnessOpts gpt4Cfg witnessQuestions ∧
      ∃ r, s.results[1]? = some r ∧ r.confidence = 0 ∧ r.error = true ∧
        r.answer = fallbackAnswer (getProviderFromModel witnessOpts.model) ∧
        r.question = witnessQuestions.getD 1 "" :=
  ⟨rfl, rfl, by decide, rfl,
    c9_failure_isolated witnessEnv witnessQuestions witnessOpts gpt4Cfg 1 "boom"
      rfl rfl (by decide) rfl⟩

/-- C10.  REFUTED (code bug): the loop does NOT terminate on any
non-empty input.  The claim's reasoning fails at the last window: there
`endIndex = content.length`, so the next `startIndex = content.length -
200 < content.length` (it does not advance past the end), and the guard
holds forever. -/
theorem c10_termination_refuted : ∀ (env : ChunkerEnv) (content domain : String),
    0 < content.length → ∀ fuel, intelligentChunking env content domain fuel = none :=
  fun env content domain h fuel => intelligentChunking_eq_none env content domain h fuel

/-- C10 witness: the single-character text "a". -/
theorem c10_termination_refuted_witness :
    0 < String.length "a" ∧ intelligentChunking chunkerEnvA "a" "legal" 5 = none :=
  ⟨by decide, c10_termination_refuted chunkerEnvA "a" "legal" (by decide) 5⟩

end LLMHack
